import Mathlib

/-
  Verification of the roles router of the a2 RBAC administration layer.

  The router handlers (POST /roles, DELETE /roles/:roleName,
  POST /roles/:roleName/resources, POST /roles/:roleName/resources/x/permissions,
  DELETE /roles/:roleName/resources/x/permissions/:permissionName,
  DELETE /roles/:roleName/resources/x, GET /roles/:roleName) are embedded from
  the source file of the roles router.  The AccessControlStore that the router
  reaches through req.app.acl is repository code that is not part of the given
  sources, so its operations (listRoles, existsRole, allow, whatResources,
  removeRole, removeAllow) are modelled from the specification, section 4.1.

  State model: an association list from role name to a resource map, where a
  resource map is an association list from resource name to its ordered
  permission list.  Request bodies are records of optional fields, mirroring
  the presence or absence of the JSON fields the handlers test for.
-/

namespace A2

/-- Resource map of one role: resource name to its ordered permission list. -/
abbrev ResMap := List (String × List String)

/-- The role to resource-map graph owned by the AccessControlStore. -/
abbrev AclState := List (String × ResMap)

/-- An HTTP-surfaced error: message and status code, as built by the router
(`err = new Error(msg); err.status = code`). -/
structure Err where
  msg : String
  status : Nat
deriving DecidableEq, Repr

/-- One entry of the allows-shaped request body:
`\x7b resources, permissions \x7d`. -/
structure AllowEntry where
  resources : List String
  permissions : List String
deriving DecidableEq, Repr

/-- A roles-router request body.  Each field is `none` when the JSON field is
absent, mirroring the handlers' presence tests (`!req.body.allows` etc.). -/
structure Body where
  roles : Option String
  allows : Option (List AllowEntry)
  resources : Option (List String)
  permissions : Option (List String)
deriving DecidableEq, Repr

/-- A JSON response of the roles router: a role list, a resource map, or a
permission list. -/
inductive Resp where
  | roles (rs : List String)
  | resmap (m : ResMap)
  | perms (ps : List String)
deriving DecidableEq, Repr

/-- JavaScript falsiness of an optional string (`!req.body.roles`): absent or
empty. -/
def strFalsy : Option String → Bool
  | none => true
  | some s => s.isEmpty

/-- First binding of a key in an association list (a JS object property
lookup such as `result[resource]`). -/
def assocFind {β : Type} (key : String) : List (String × β) → Option β
  | [] => none
  | (k, v) :: rest => if k = key then some v else assocFind key rest

/-- Error used when a role is absent (spec: NotFoundError, surfaced as 400). -/
def roleNotFoundErr : Err := ⟨"The role does not exist.", 400⟩

def rolesRequiredErr : Err := ⟨"Roles required!", 400⟩

def allowsRequiredErr : Err := ⟨"Allows, or Resources and Permissions required!", 400⟩

def roleExistsErr (n : String) : Err := ⟨"The role " ++ n ++ " already exists.", 400⟩

def indestructibleErr (n : String) : Err := ⟨"The role " ++ n ++ " is indestructible", 403⟩

def permissionsRequiredErr : Err := ⟨"Permissions required!", 400⟩

def resourceNotFoundErr (r n : String) : Err :=
  ⟨"The resource " ++ r ++ " in " ++ n ++ " does not exist.", 400⟩

def lastPermissionErr (p : String) : Err :=
  ⟨"The permission " ++ p ++ " cant be remove because is the last", 400⟩

def permissionNotFoundErr (p r n : String) : Err :=
  ⟨"The permission " ++ p ++ " in the resource " ++ r ++ " in " ++ n ++ " does not exist.", 400⟩

/-- Modelled from the spec: `listRoles()` returns the ordered sequence of role
identifiers (section 4.1). -/
def listRoles (s : AclState) : List String := s.map Prod.fst

/-- Modelled from the spec: `existsRole(name)` succeeds when the role is
present and fails with NotFoundError otherwise (section 4.1). -/
def existsRole (s : AclState) (role : String) : Except Err Unit :=
  match assocFind role s with
  | some _ => Except.ok ()
  | none => Except.error roleNotFoundErr

/-- Modelled from the spec: `whatResources(roleName)` returns the mapping from
resource identifier to ordered permission sequence, NotFoundError if the role
is absent (section 4.1). -/
def whatResources (s : AclState) (role : String) : Except Err ResMap :=
  match assocFind role s with
  | some rm => Except.ok rm
  | none => Except.error roleNotFoundErr

/-- Modelled from the spec: the idempotent union of new permissions into an
existing ordered permission set — duplicates are not added (sections 3
and 4.1). -/
def addPerms (old ps : List String) : List String :=
  ps.foldl (fun acc p => if acc.contains p then acc else acc ++ [p]) old

/-- Modelled from the spec: grant permissions on one resource of a resource
map, creating the resource if absent (allow, section 4.1). -/
def allowRes (rm : ResMap) (r : String) (ps : List String) : ResMap :=
  match rm with
  | [] => [(r, addPerms [] ps)]
  | (k, old) :: rest =>
      if k = r then (k, addPerms old ps) :: rest
      else (k, old) :: allowRes rest r ps

/-- Modelled from the spec: grant permissions on each listed resource of a
resource map (allow, section 4.1). -/
def allowOne (rm : ResMap) (resources : List String) (ps : List String) : ResMap :=
  resources.foldl (fun acc r => allowRes acc r ps) rm

/-- Modelled from the spec: the flattened call shape
`allow(role, resources, permissions)` — creates the role if absent, creates
resources if absent, unions permissions idempotently (section 4.1). -/
def allowRole (s : AclState) (role : String) (resources : List String) (ps : List String) : AclState :=
  match s with
  | [] => [(role, allowOne [] resources ps)]
  | (n, rm) :: rest =>
      if n = role then (n, allowOne rm resources ps) :: rest
      else (n, rm) :: allowRole rest role resources ps

/-- Modelled from the spec: creates the role with no resources when absent
(allow creates the role if absent, section 4.1). -/
def ensureRole (s : AclState) (role : String) : AclState :=
  match s with
  | [] => [(role, [])]
  | (n, rm) :: rest =>
      if n = role then (n, rm) :: rest
      else (n, rm) :: ensureRole rest role

/-- Modelled from the spec: the allows-array call shape
`allow([\x7broles, allows\x7d])`, equivalent to granting each allows entry
under the role (section 4.1 requires the two call shapes be equivalent). -/
def allowEntries (s : AclState) (role : String) (entries : List AllowEntry) : AclState :=
  entries.foldl (fun acc e => allowRole acc role e.resources e.permissions) (ensureRole s role)

/-- Modelled from the spec: `removeRole(roleName)` — refuses with
ForbiddenError when the role is `admin`, NotFoundError when absent, otherwise
removes the role (section 4.1). -/
def removeRole (s : AclState) (role : String) : Except Err AclState :=
  if role = "admin" then Except.error (indestructibleErr role)
  else match assocFind role s with
    | some _ => Except.ok (s.filter (fun p => p.1 != role))
    | none => Except.error roleNotFoundErr

/-- Modelled from the spec: remove the given permissions from every entry of
the resource map named `r`; a resource whose permission set becomes empty is
dropped from the view, per the invariants of section 3 (a Resource with zero
permissions is not a valid steady state) and the resource-deletion note of
section 9. -/
def removePerms (rm : ResMap) (r : String) (ps : List String) : ResMap :=
  match rm with
  | [] => []
  | (k, old) :: rest =>
      if k = r then
        let kept := old.filter (fun p => !(ps.contains p))
        if kept.isEmpty then removePerms rest r ps
        else (k, kept) :: removePerms rest r ps
      else (k, old) :: removePerms rest r ps

/-- Modelled from the spec: `removeAllow(roleName, resource, permissions)`
removes the given permission(s) from the given resource under the role
(section 4.1). -/
def removeAllow (s : AclState) (role : String) (r : String) (ps : List String) : AclState :=
  match s with
  | [] => []
  | (n, rm) :: rest =>
      if n = role then (n, removePerms rm r ps) :: removeAllow rest role r ps
      else (n, rm) :: removeAllow rest role r ps

/-
  Router handlers, embedded from the roles router source.  Each handler takes
  the store state and the request data and returns the response
  (`res.json`d value or the error passed to `next`) together with the store
  state after the handler has run.  A failing stage short-circuits with the
  state unchanged, mirroring async.auto dependency chains where `done(err)`
  prevents the dependent mutation task from running.
-/

/-- The validate task of POST /roles: roles field required (JS falsy check),
then allows XOR resources+permissions shape, then the role must not already be
listed by listRoles. -/
def postRolesValidate (s : AclState) (body : Body) : Except Err Unit :=
  if strFalsy body.roles then Except.error rolesRequiredErr
  else if body.allows.isNone && (body.resources.isNone || body.permissions.isNone) then
    Except.error allowsRequiredErr
  else if (listRoles s).contains (body.roles.getD "") then
    Except.error (roleExistsErr (body.roles.getD ""))
  else Except.ok ()

/-- The store state after a grant request body is applied under a role:
`acl.allow([body])` for the allows shape, or
`acl.allow(role, resources, permissions)` for the flattened shape. -/
def grantState (s : AclState) (roleName : String) (body : Body) : AclState :=
  match body.allows with
  | some entries => allowEntries s roleName entries
  | none => allowRole s roleName (body.resources.getD []) (body.permissions.getD [])

/-- POST /roles: validate, then the addRole task grants through
`acl.allow([req.body])` (allows shape) or
`acl.allow(roles, resources, permissions)` (flattened shape), then the final
callback re-queries listRoles for the response. -/
def postRoles (s : AclState) (body : Body) : Except Err Resp × AclState :=
  match postRolesValidate s body with
  | Except.error e => (Except.error e, s)
  | Except.ok () =>
    (Except.ok (Resp.roles (listRoles (grantState s (body.roles.getD "") body))),
     grantState s (body.roles.getD "") body)

/-- DELETE /roles/:roleName: the validate task refuses the admin role with a
403 before consulting existsRole; the delete task calls removeRole; the final
callback re-queries listRoles. -/
def deleteRole (s : AclState) (roleName : String) : Except Err Resp × AclState :=
  if roleName = "admin" then (Except.error (indestructibleErr roleName), s)
  else match existsRole s roleName with
  | Except.error e => (Except.error e, s)
  | Except.ok () =>
    match removeRole s roleName with
    | Except.error e => (Except.error e, s)
    | Except.ok s' => (Except.ok (Resp.roles (listRoles s')), s')

/-- The structural validate task of POST /roles/:roleName/resources:
allows, or resources and permissions, must be present. -/
def postResourcesValidate (body : Body) : Except Err Unit :=
  if body.allows.isNone && (body.resources.isNone || body.permissions.isNone) then
    Except.error allowsRequiredErr
  else Except.ok ()

/-- POST /roles/:roleName/resources: structural validate, then checkRole
(existsRole), then the addResources task overwrites the body roles field with
the path roleName (`role.roles = roleName`) and grants; the final callback
re-queries whatResources. -/
def postResources (s : AclState) (roleName : String) (body : Body) : Except Err Resp × AclState :=
  match postResourcesValidate body with
  | Except.error e => (Except.error e, s)
  | Except.ok () =>
    match existsRole s roleName with
    | Except.error e => (Except.error e, s)
    | Except.ok () =>
      match whatResources (grantState s roleName body) roleName with
      | Except.error e => (Except.error e, grantState s roleName body)
      | Except.ok rm => (Except.ok (Resp.resmap rm), grantState s roleName body)

/-- POST /roles/:roleName/resources/x/permissions: the checkRole task
(existsRole) runs first and the validate task depends on it; validate then
requires the permissions field, re-reads whatResources and requires the
resource to be present; the addPermissions task grants and the final callback
re-queries whatResources and responds with the resource entry. -/
def postPermissions (s : AclState) (roleName resource : String) (body : Body) : Except Err Resp × AclState :=
  match existsRole s roleName with
  | Except.error e => (Except.error e, s)
  | Except.ok () =>
    if body.permissions.isNone then (Except.error permissionsRequiredErr, s)
    else match whatResources s roleName with
    | Except.error e => (Except.error e, s)
    | Except.ok result =>
      match assocFind resource result with
      | none => (Except.error (resourceNotFoundErr resource roleName), s)
      | some _ =>
        match whatResources (allowRole s roleName [resource] (body.permissions.getD [])) roleName with
        | Except.error e =>
            (Except.error e, allowRole s roleName [resource] (body.permissions.getD []))
        | Except.ok result' =>
            (Except.ok (Resp.perms ((assocFind resource result').getD [])),
             allowRole s roleName [resource] (body.permissions.getD []))

/-- DELETE /roles/:roleName/resources/x/permissions/:permissionName: checkRole
first, then validate re-reads whatResources and checks, in order, resource
presence, the last-permission guard (fewer than two permissions), and
permission membership; the removePermissions task calls removeAllow with the
single permission; the final callback re-queries whatResources and responds
with the resource entry or the empty list. -/
def deletePermission (s : AclState) (roleName resource permission : String) : Except Err Resp × AclState :=
  match existsRole s roleName with
  | Except.error e => (Except.error e, s)
  | Except.ok () =>
    match whatResources s roleName with
    | Except.error e => (Except.error e, s)
    | Except.ok result =>
      match assocFind resource result with
      | none => (Except.error (resourceNotFoundErr resource roleName), s)
      | some ps =>
        if ps.length < 2 then (Except.error (lastPermissionErr permission), s)
        else if !(ps.contains permission) then
          (Except.error (permissionNotFoundErr permission resource roleName), s)
        else
          match whatResources (removeAllow s roleName resource [permission]) roleName with
          | Except.error e => (Except.error e, removeAllow s roleName resource [permission])
          | Except.ok result' =>
            (Except.ok (Resp.perms ((assocFind resource result').getD [])),
             removeAllow s roleName resource [permission])

/-- DELETE /roles/:roleName/resources/x: validate checks existsRole, re-reads
whatResources and requires the resource, yielding its previous permission
list; the deleteResources task calls removeAllow with that previous list as
the permissions-to-remove argument; the final callback re-queries
whatResources. -/
def deleteResource (s : AclState) (roleName resource : String) : Except Err Resp × AclState :=
  match existsRole s roleName with
  | Except.error e => (Except.error e, s)
  | Except.ok () =>
    match whatResources s roleName with
    | Except.error e => (Except.error e, s)
    | Except.ok result =>
      match assocFind resource result with
      | none => (Except.error (resourceNotFoundErr resource roleName), s)
      | some prevPerms =>
        match whatResources (removeAllow s roleName resource prevPerms) roleName with
        | Except.error e => (Except.error e, removeAllow s roleName resource prevPerms)
        | Except.ok result' =>
            (Except.ok (Resp.resmap result'), removeAllow s roleName resource prevPerms)

/-- A mutating request of the roles router. -/
inductive MutReq where
  | mkRole (body : Body)
  | rmRole (roleName : String)
  | mkResources (roleName : String) (body : Body)
  | mkPermissions (roleName resource : String) (body : Body)
  | rmPermission (roleName resource permission : String)
  | rmResource (roleName resource : String)
deriving DecidableEq, Repr

/-- Dispatch of the six mutating roles-router endpoints. -/
def handle (s : AclState) : MutReq → Except Err Resp × AclState
  | MutReq.mkRole body => postRoles s body
  | MutReq.rmRole n => deleteRole s n
  | MutReq.mkResources n body => postResources s n body
  | MutReq.mkPermissions n r body => postPermissions s n r body
  | MutReq.rmPermission n r p => deletePermission s n r p
  | MutReq.rmResource n r => deleteResource s n r

/-
  updateAppRoutes, embedded from the roles router source: collect the
  resources of the request body, group those not starting with a slash by the
  part before their first slash, and for each group look the prefix up in the
  application registry; a lookup error returns silently, a found application
  gets the new routes merged into its route list and saved.
-/

/-- The resource list that updateAppRoutes collects from the request body:
concatenation of the allows entries resources, or the flat resources field. -/
def routeResources (body : Body) : List String :=
  match body.allows with
  | some entries => entries.foldl (fun acc e => acc ++ e.resources) []
  | none => body.resources.getD []

/-- Append a route under a grouping key, creating the group if absent
(the newAppRoutes object of updateAppRoutes). -/
def insertRoute (acc : List (String × List String)) (pfx resc : String) : List (String × List String) :=
  match acc with
  | [] => [(pfx, [resc])]
  | (k, rs) :: rest =>
      if k = pfx then (k, rs ++ [resc]) :: rest
      else (k, rs) :: insertRoute rest pfx resc

/-- One step of the newAppRoutes grouping loop of updateAppRoutes: a resource
whose first character is a slash is skipped (`resc[0] !== slash` guards the
body), otherwise it is grouped under the part of it before the first slash
(`resc.split(slash)[0]`). -/
def groupStep (acc : List (String × List String)) (resc : String) : List (String × List String) :=
  if resc.data.head? = some '/' then acc
  else insertRoute acc ((resc.splitOn "/").headI) resc

/-- The newAppRoutes grouping of updateAppRoutes over the collected resource
list. -/
def groupRoutes (resources : List String) : List (String × List String) :=
  resources.foldl groupStep []

/-- Outcome of the registry lookup `ApplicationModel.findOne(\x7bprefix\x7d)`:
backend error, no matching application, or an application whose route list may
be absent. -/
inductive FindResult where
  | backendError
  | noApp
  | app (routes : Option (List String))
deriving DecidableEq, Repr

/-- The route merge of updateAppRoutes: push each new route absent from the
existing route list. -/
def mergeRoutes (existing new : List String) : List String :=
  new.foldl (fun acc r => if acc.contains r then acc else acc ++ [r]) existing

/-- The registry saves performed by updateAppRoutes, given the registry lookup
outcome for each prefix: a lookup error returns without saving, a missing
application saves nothing, a found application has the group routes merged
into its (possibly absent) route list and saved. -/
def registrySaves (findOne : String → FindResult) (resources : List String) :
    List (String × List String) :=
  (groupRoutes resources).foldl
    (fun acc pr =>
      match findOne pr.1 with
      | FindResult.backendError => acc
      | FindResult.noApp => acc
      | FindResult.app routes => acc ++ [(pr.1, mergeRoutes (routes.getD []) pr.2)])
    []

/-- updateAppRoutes as called by the router, on the resources of the body. -/
def updateAppRoutes (findOne : String → FindResult) (body : Body) :
    List (String × List String) :=
  registrySaves findOne (routeResources body)

/-- POST /roles with its side effect on the application registry: the addRole
task calls updateAppRoutes after initiating the grant, so the registry saves
happen exactly when validation passed; the primary response never reads the
registry. -/
def postRolesFull (findOne : String → FindResult) (s : AclState) (body : Body) :
    (Except Err Resp × AclState) × List (String × List String) :=
  (postRoles s body,
   match postRolesValidate s body with
   | Except.error _ => []
   | Except.ok () => updateAppRoutes findOne body)

/-- POST /roles/:roleName/resources with its side effect on the application
registry: the addResources task calls updateAppRoutes after initiating the
grant, so the registry saves happen exactly when validate and checkRole
passed; the primary response never reads the registry. -/
def postResourcesFull (findOne : String → FindResult) (s : AclState) (roleName : String)
    (body : Body) : (Except Err Resp × AclState) × List (String × List String) :=
  (postResources s roleName body,
   match postResourcesValidate body with
   | Except.error _ => []
   | Except.ok () =>
     match existsRole s roleName with
     | Except.error _ => []
     | Except.ok () => updateAppRoutes findOne body)

/-
  The get task of GET /roles/:roleName.  Its whatResources callback is

      if (err) \x7b done(err); \x7d
      done(null, result);

  so the calls made to done are recorded in order.
-/

/-- One invocation of an async.auto task callback. -/
inductive DoneCall where
  | fail (e : Err)
  | ok (result : Option ResMap)
deriving DecidableEq, Repr

/-- The whatResources callback body of the get task of GET /roles/:roleName:
on an error it calls done(err) and then, not having returned, also calls
done(null, result). -/
def getTaskCallback : Option Err → Option ResMap → List DoneCall
  | some e, result => [DoneCall.fail e] ++ [DoneCall.ok result]
  | none, result => [DoneCall.ok result]

/-- The done invocations of the get task for a given whatResources outcome
(on error the callback receives err and an undefined result). -/
def getTaskCalls : Except Err ResMap → List DoneCall
  | Except.error e => getTaskCallback (some e) none
  | Except.ok rm => getTaskCallback none (some rm)

/-- The authoritative post-mutation view each endpoint re-queries for its
response: listRoles for role creation and deletion, whatResources (or its
resource entry) for resource and permission mutations. -/
def requeryView (s : AclState) : MutReq → Except Err Resp
  | MutReq.mkRole _ => Except.ok (Resp.roles (listRoles s))
  | MutReq.rmRole _ => Except.ok (Resp.roles (listRoles s))
  | MutReq.mkResources n _ => (whatResources s n).map Resp.resmap
  | MutReq.mkPermissions n r _ =>
      (whatResources s n).map (fun rm => Resp.perms ((assocFind r rm).getD []))
  | MutReq.rmPermission n r _ =>
      (whatResources s n).map (fun rm => Resp.perms ((assocFind r rm).getD []))
  | MutReq.rmResource n _ => (whatResources s n).map Resp.resmap

/-- Every resource of a resource map has at least one permission. -/
def RmOk (rm : ResMap) : Prop := ∀ q ∈ rm, q.2 ≠ ([] : List String)

/-- Last-permission invariant of the store: every resource of every role has
at least one permission. -/
def Inv (s : AclState) : Prop := ∀ p ∈ s, RmOk p.2

/-- Every permission list supplied by the request body is nonempty (the spec
RoleGrant assigns one or more Permissions). -/
def bodyPermsOk (body : Body) : Bool :=
  (match body.permissions with
   | none => true
   | some ps => !ps.isEmpty) &&
  (match body.allows with
   | none => true
   | some es => es.all (fun e => !e.permissions.isEmpty))

/-- Every permission list supplied by a grant request is nonempty; deletion
requests are unconstrained. -/
def reqPermsOk : MutReq → Bool
  | MutReq.mkRole b => bodyPermsOk b
  | MutReq.mkResources _ b => bodyPermsOk b
  | MutReq.mkPermissions _ _ b => bodyPermsOk b
  | MutReq.rmRole _ => true
  | MutReq.rmPermission _ _ _ => true
  | MutReq.rmResource _ _ => true

/-- The body with its roles field replaced. -/
def withRoles (b : Body) (r : Option String) : Body :=
  ⟨r, b.allows, b.resources, b.permissions⟩

instance (rm : ResMap) : Decidable (RmOk rm) :=
  inferInstanceAs (Decidable (∀ q ∈ rm, q.2 ≠ ([] : List String)))

instance (s : AclState) : Decidable (Inv s) :=
  inferInstanceAs (Decidable (∀ p ∈ s, RmOk p.2))

end A2

namespace A2

/-- C3: for every store state, DELETE of the role named admin fails with the
403 indestructible error and returns the state unchanged; this holds also on
states where admin is absent, where the backend existence check would instead
report a 400 not-found error, so the refusal precedes any existence check. -/
theorem admin_role_indestructible (s : AclState) :
    deleteRole s "admin" = (Except.error (indestructibleErr "admin"), s) ∧
    (indestructibleErr "admin").status = 403 := by
  refine ⟨?_, rfl⟩
  simp [deleteRole]

/-- C6: the primary outcome (response or error, and resulting ACL state) of
the two grant endpoints that notify the application route registry is the
same for every pair of registry lookup behaviors, so a registry lookup or
save failure never changes the ACL mutation outcome. -/
theorem registry_failure_never_escalates (f g : String → FindResult) (s : AclState)
    (n : String) (b : Body) :
    (postRolesFull f s b).1 = (postRolesFull g s b).1 ∧
    (postResourcesFull f s n b).1 = (postResourcesFull g s n b).1 :=
  ⟨rfl, rfl⟩

/-- C8: POST /roles/:roleName/resources grants to the roleName taken from the
URL path; two requests differing only in the roles field of the body produce
the same response and the same resulting store state. -/
theorem body_roles_field_ignored (s : AclState) (n : String) (b : Body)
    (r1 r2 : Option String) :
    postResources s n (withRoles b r1) = postResources s n (withRoles b r2) :=
  rfl

/-- C9: when whatResources reports an error in the get task of
GET /roles/:roleName, the task callback done is invoked twice, first with the
error and then with the undefined result, because the error branch does not
return. -/
theorem get_task_callback_invoked_twice (e : Err) :
    getTaskCalls (Except.error e) = [DoneCall.fail e, DoneCall.ok none] ∧
    (getTaskCalls (Except.error e)).length = 2 :=
  ⟨rfl, rfl⟩

/-- C1 counterexample: on a store satisfying the last-permission invariant, a
POST /roles/:roleName/resources request whose permissions field is the empty
list passes validation (the handler only tests presence of the field),
completes successfully, and leaves a resource with an empty permission list,
violating the invariant. -/
theorem empty_grant_breaks_invariant :
    Inv [("r0", [("res0", ["p0"])])] ∧
    (handle [("r0", [("res0", ["p0"])])]
        (MutReq.mkResources "r0" ⟨none, none, some ["res1"], some []⟩)).1
      = Except.ok (Resp.resmap [("res0", ["p0"]), ("res1", [])]) ∧
    ¬ Inv (handle [("r0", [("res0", ["p0"])])]
        (MutReq.mkResources "r0" ⟨none, none, some ["res1"], some []⟩)).2 :=
  ⟨by decide, rfl, by decide⟩

/-- C2 counterexample: deleting one of the two permissions of a resource (the
second-to-last permission) succeeds with a 200 response and changes the
store, contradicting the claim that removing the second-to-last permission
fails with a 400 error and leaves the resource unchanged.  Only removing the
last remaining permission is refused. -/
theorem second_to_last_removal_succeeds :
    deletePermission [("editor", [("docs", ["read", "write"])])] "editor" "docs" "write"
      = (Except.ok (Resp.perms ["read"]), [("editor", [("docs", ["read"])])]) ∧
    ([("editor", [("docs", ["read"])])] : AclState)
      ≠ [("editor", [("docs", ["read", "write"])])] :=
  ⟨rfl, by decide⟩

/-- C4 counterexample: a POST /roles/:roleName/resources/x/permissions request
with both a structural defect (missing permissions field) and an existence
defect (unknown role) is answered with the existence error, not the
structural one, because the checkRole task runs before the validate task. -/
theorem existence_error_beats_structural :
    postPermissions [] "ghost" "res" ⟨none, none, none, none⟩
      = (Except.error roleNotFoundErr, []) ∧
    roleNotFoundErr ≠ permissionsRequiredErr :=
  ⟨rfl, by decide⟩

theorem assocFind_removeAllow (s : AclState) (role r : String) (ps : List String) :
    assocFind role (removeAllow s role r ps)
      = (assocFind role s).map (fun rm => removePerms rm r ps) := by
  induction s with
  | nil => rfl
  | cons hd tl ih =>
    obtain ⟨n, rm⟩ := hd
    by_cases h : n = role
    · subst h
      simp [removeAllow, assocFind]
    · simp [removeAllow, assocFind, h, ih]

theorem assocFind_eq_none {β : Type} (l : List (String × β)) (key : String)
    (h : key ∉ l.map Prod.fst) : assocFind key l = none := by
  induction l with
  | nil => rfl
  | cons hd tl ih =>
    simp only [List.map_cons, List.mem_cons] at h
    push_neg at h
    simp only [assocFind]
    rw [if_neg (fun hk => h.1 hk.symm)]
    exact ih h.2

theorem mem_keys_removePerms (rm : ResMap) (r : String) (ps : List String) (x : String)
    (h : x ∈ (removePerms rm r ps).map Prod.fst) : x ∈ rm.map Prod.fst := by
  induction rm with
  | nil => simp [removePerms] at h
  | cons hd tl ih =>
    obtain ⟨k, old⟩ := hd
    simp only [List.map_cons, List.mem_cons]
    by_cases hk : k = r
    · simp only [removePerms, if_pos hk] at h
      split at h
      · exact Or.inr (ih h)
      · simp only [List.map_cons, List.mem_cons] at h
        rcases h with h | h
        · exact Or.inl h
        · exact Or.inr (ih h)
    · simp only [removePerms, if_neg hk, List.map_cons, List.mem_cons] at h
      rcases h with h | h
      · exact Or.inl h
      · exact Or.inr (ih h)

theorem filter_not_contains_self (ps : List String) :
    ps.filter (fun p => !(ps.contains p)) = [] := by
  apply List.filter_eq_nil_iff.mpr
  intro a ha
  simp [ha]

theorem assocFind_removePerms_self (rm : ResMap) (r : String) (ps : List String)
    (hnd : (rm.map Prod.fst).Nodup) (hr : assocFind r rm = some ps) :
    assocFind r (removePerms rm r ps) = none := by
  induction rm with
  | nil => cases hr
  | cons hd tl ih =>
    obtain ⟨k, old⟩ := hd
    simp only [List.map_cons, List.nodup_cons] at hnd
    obtain ⟨hk, hnd'⟩ := hnd
    by_cases h : k = r
    · subst h
      simp only [assocFind, eq_self_iff_true, if_true, Option.some.injEq] at hr
      subst hr
      simp only [removePerms, eq_self_iff_true, if_true, filter_not_contains_self,
        List.isEmpty_nil]
      exact assocFind_eq_none _ _ (fun hmem => hk (mem_keys_removePerms tl k _ k hmem))
    · simp only [assocFind, if_neg h] at hr
      simp only [removePerms, if_neg h, assocFind, if_neg h]
      exact ih hnd' hr

/-- C7: deleting a resource of a role hands removeAllow the previous full
permission list of that resource as the permissions-to-remove argument, and
on success the re-queried whatResources view no longer contains the resource
(its role entry and resource keys taken without duplicates). -/
theorem resource_deletion_uses_previous_permissions
    (s : AclState) (roleName resource : String) (rm : ResMap) (ps : List String)
    (hnd : (rm.map Prod.fst).Nodup)
    (hs : assocFind roleName s = some rm)
    (hr : assocFind resource rm = some ps) :
    deleteResource s roleName resource
      = (Except.ok (Resp.resmap (removePerms rm resource ps)),
         removeAllow s roleName resource ps) ∧
    assocFind resource (removePerms rm resource ps) = none := by
  constructor
  · simp [deleteResource, existsRole, whatResources, hs, hr, assocFind_removeAllow]
  · exact assocFind_removePerms_self rm resource ps hnd hr

/-- Witness for C7 at a concrete store: deleting resource a of role r passes
its previous permissions and drops it from the re-queried view. -/
theorem resource_deletion_uses_previous_permissions_witness :
    deleteResource [("r", [("a", ["p", "q"]), ("b", ["z"])])] "r" "a"
      = (Except.ok (Resp.resmap (removePerms [("a", ["p", "q"]), ("b", ["z"])] "a" ["p", "q"])),
         removeAllow [("r", [("a", ["p", "q"]), ("b", ["z"])])] "r" "a" ["p", "q"]) ∧
    assocFind "a" (removePerms [("a", ["p", "q"]), ("b", ["z"])] "a" ["p", "q"]) = none :=
  resource_deletion_uses_previous_permissions _ _ _ _ _ (by decide) rfl rfl

/-- C2 amended: a DELETE-permission request targeting a resource whose
permission list has fewer than two entries (in particular, removing the last
remaining permission) fails with the 400 last-permission error and leaves the
store unchanged; when the resource holds two or more permissions and the
named permission is present — removing the second-to-last permission
included — the request succeeds and updates the store through removeAllow,
responding with the re-queried permission list. -/
theorem last_permission_removal_refused
    (s : AclState) (n r p : String) (rm : ResMap) (ps : List String)
    (hs : assocFind n s = some rm) (hr : assocFind r rm = some ps) :
    (ps.length < 2 → deletePermission s n r p = (Except.error (lastPermissionErr p), s)) ∧
    (2 ≤ ps.length → ps.contains p = true →
      deletePermission s n r p
        = (Except.ok (Resp.perms ((assocFind r (removePerms rm r [p])).getD [])),
           removeAllow s n r [p])) := by
  constructor
  · intro hlen
    simp [deletePermission, existsRole, whatResources, hs, hr, hlen]
  · intro hlen hmem
    have hlt : ¬ ps.length < 2 := Nat.not_lt.mpr hlen
    simp [deletePermission, existsRole, whatResources, hs, hr, hlt, hmem,
      List.mem_of_elem_eq_true hmem, assocFind_removeAllow]

/-- Witness for the amended C2 at a concrete store: removing the only
permission of a resource is refused with the 400 last-permission error. -/
theorem last_permission_removal_refused_witness :
    deletePermission [("e", [("d", ["read"])])] "e" "d" "read"
      = (Except.error (lastPermissionErr "read"), [("e", [("d", ["read"])])]) :=
  (last_permission_removal_refused [("e", [("d", ["read"])])] "e" "d" "read"
    [("d", ["read"])] ["read"] rfl rfl).1 (by decide)

/-- C4 amended: the per-endpoint validation order of the roles router.  In
POST /roles/:roleName/resources/x/permissions and in
DELETE /roles/:roleName/resources/x/permissions/:permissionName the
role-existence check runs first and short-circuits, so an absent role masks a
structural defect; the structural permissions-required error surfaces only
once the role exists.  In POST /roles/:roleName/resources, and likewise in
POST /roles, the structural checks run before any existence consult: their
structural errors are returned for every store state, so no existence lookup
can preempt them. -/
theorem validation_order_per_endpoint (s : AclState) (n r p : String) (b : Body) :
    (assocFind n s = none → postPermissions s n r b = (Except.error roleNotFoundErr, s)) ∧
    ((assocFind n s).isSome = true → b.permissions = none →
      postPermissions s n r b = (Except.error permissionsRequiredErr, s)) ∧
    (assocFind n s = none → deletePermission s n r p = (Except.error roleNotFoundErr, s)) ∧
    (b.allows = none → b.resources = none →
      postResources s n b = (Except.error allowsRequiredErr, s)) ∧
    (strFalsy b.roles = true → postRoles s b = (Except.error rolesRequiredErr, s)) ∧
    (strFalsy b.roles = false → b.allows = none → b.resources = none →
      postRoles s b = (Except.error allowsRequiredErr, s)) := by
  refine ⟨?_, ?_, ?_, ?_, ?_, ?_⟩
  · intro h
    simp [postPermissions, existsRole, h]
  · intro h hp
    obtain ⟨rm, hrm⟩ := Option.isSome_iff_exists.mp h
    simp [postPermissions, existsRole, hrm, hp]
  · intro h
    simp [deletePermission, existsRole, h]
  · intro ha hr
    simp [postResources, postResourcesValidate, ha, hr]
  · intro h
    simp [postRoles, postRolesValidate, h]
  · intro h ha hr
    simp [postRoles, postRolesValidate, h, ha, hr]

/-- Witness for the amended C4 at a concrete input: an unknown role
short-circuits POST .../permissions even when the body is structurally
complete. -/
theorem validation_order_per_endpoint_witness :
    postPermissions [] "ghost" "res" ⟨none, none, none, some ["p"]⟩
      = (Except.error roleNotFoundErr, []) :=
  (validation_order_per_endpoint [] "ghost" "res" "q" ⟨none, none, none, some ["p"]⟩).1 rfl

/-- C5: a successful response of any mutating roles endpoint equals the
re-queried authoritative view of the post-mutation store, never an echo of
the request payload. -/
theorem response_is_requeried_view (s : AclState) (req : MutReq) (resp : Resp) (s' : AclState)
    (h : handle s req = (Except.ok resp, s')) :
    requeryView s' req = Except.ok resp := by
  cases req with
  | mkRole b =>
    simp only [handle] at h
    unfold postRoles at h
    split at h
    · simp at h
    · rw [Prod.mk.injEq] at h
      obtain ⟨h1, h2⟩ := h
      subst h2
      simpa [requeryView] using h1
  | rmRole n =>
    simp only [handle] at h
    unfold deleteRole at h
    split at h
    · simp at h
    · split at h
      · simp at h
      · split at h
        · simp at h
        · rw [Prod.mk.injEq] at h
          obtain ⟨h1, h2⟩ := h
          subst h2
          simpa [requeryView] using h1
  | mkResources n b =>
    simp only [handle] at h
    unfold postResources at h
    split at h
    · simp at h
    · split at h
      · simp at h
      · split at h
        · simp at h
        · rename_i rm heq
          rw [Prod.mk.injEq] at h
          obtain ⟨h1, h2⟩ := h
          subst h2
          simpa [requeryView, heq, Except.map] using h1
  | mkPermissions n r b =>
    simp only [handle] at h
    unfold postPermissions at h
    split at h
    · simp at h
    · split at h
      · simp at h
      · split at h
        · simp at h
        · split at h
          · simp at h
          · split at h
            · simp at h
            · rename_i result' heq
              rw [Prod.mk.injEq] at h
              obtain ⟨h1, h2⟩ := h
              subst h2
              simpa [requeryView, heq, Except.map] using h1
  | rmPermission n r p =>
    simp only [handle] at h
    unfold deletePermission at h
    split at h
    · simp at h
    · split at h
      · simp at h
      · split at h
        · simp at h
        · split at h
          · simp at h
          · split at h
            · simp at h
            · split at h
              · simp at h
              · rename_i result' heq
                rw [Prod.mk.injEq] at h
                obtain ⟨h1, h2⟩ := h
                subst h2
                simpa [requeryView, heq, Except.map] using h1
  | rmResource n r =>
    simp only [handle] at h
    unfold deleteResource at h
    split at h
    · simp at h
    · split at h
      · simp at h
      · split at h
        · simp at h
        · split at h
          · simp at h
          · rename_i result' heq
            rw [Prod.mk.injEq] at h
            obtain ⟨h1, h2⟩ := h
            subst h2
            simpa [requeryView, heq, Except.map] using h1

/-- Witness for C5 at a concrete request: the role-creation response equals
the re-queried role list of the post-mutation store. -/
theorem response_is_requeried_view_witness :
    requeryView [("r", [("a", ["p"])])]
        (MutReq.mkRole ⟨some "r", none, some ["a"], some ["p"]⟩)
      = Except.ok (Resp.roles ["r"]) :=
  response_is_requeried_view [] (MutReq.mkRole ⟨some "r", none, some ["a"], some ["p"]⟩)
    (Resp.roles ["r"]) [("r", [("a", ["p"])])] rfl

theorem addPerms_length (ps old : List String) :
    old.length ≤ (addPerms old ps).length := by
  induction ps generalizing old with
  | nil => exact Nat.le_refl _
  | cons p ps ih =>
    have step : old.length ≤ (if old.contains p then old else old ++ [p]).length := by
      split
      · exact Nat.le_refl _
      · simp
    exact Nat.le_trans step (ih _)

theorem addPerms_ne_nil (old ps : List String) (h : old ≠ [] ∨ ps ≠ []) :
    addPerms old ps ≠ [] := by
  cases old with
  | cons a as =>
    intro hcontra
    have := addPerms_length ps (a :: as)
    rw [hcontra] at this
    simp at this
  | nil =>
    rcases h with h | h
    · exact absurd rfl h
    · cases ps with
      | nil => exact absurd rfl h
      | cons p ps =>
        intro hcontra
        have h1 : addPerms [] (p :: ps) = addPerms [p] ps := by
          simp [addPerms]
        rw [h1] at hcontra
        have := addPerms_length ps [p]
        rw [hcontra] at this
        simp at this

theorem RmOk_allowRes (rm : ResMap) (r : String) (ps : List String)
    (h : RmOk rm) (hps : ps ≠ []) : RmOk (allowRes rm r ps) := by
  induction rm with
  | nil =>
    intro q hq
    simp [allowRes] at hq
    rw [hq]
    exact addPerms_ne_nil [] ps (Or.inr hps)
  | cons hd tl ih =>
    obtain ⟨k, old⟩ := hd
    have hold : old ≠ [] := h (k, old) (List.mem_cons_self _ _)
    have htl : RmOk tl := fun q hq => h q (List.mem_cons_of_mem _ hq)
    unfold allowRes
    split
    · intro q hq
      rcases List.mem_cons.mp hq with hq | hq
      · rw [hq]
        exact addPerms_ne_nil old ps (Or.inl hold)
      · exact htl q hq
    · intro q hq
      rcases List.mem_cons.mp hq with hq | hq
      · rw [hq]
        exact hold
      · exact ih htl q hq

theorem RmOk_allowOne (resources : List String) (ps : List String) :
    ∀ rm : ResMap, RmOk rm → ps ≠ [] → RmOk (allowOne rm resources ps) := by
  induction resources with
  | nil => intro rm h _; exact h
  | cons r rs ih =>
    intro rm h hps
    have : allowOne rm (r :: rs) ps = allowOne (allowRes rm r ps) rs ps := rfl
    rw [this]
    exact ih _ (RmOk_allowRes rm r ps h hps) hps

theorem Inv_allowRole (s : AclState) (role : String) (resources ps : List String)
    (h : Inv s) (hps : ps ≠ []) : Inv (allowRole s role resources ps) := by
  induction s with
  | nil =>
    intro p hp
    simp [allowRole] at hp
    rw [hp]
    exact RmOk_allowOne resources ps [] (fun q hq => absurd hq (List.not_mem_nil q)) hps
  | cons hd tl ih =>
    obtain ⟨n, rm⟩ := hd
    have hrm : RmOk rm := h (n, rm) (List.mem_cons_self _ _)
    have htl : Inv tl := fun p hp => h p (List.mem_cons_of_mem _ hp)
    unfold allowRole
    split
    · intro p hp
      rcases List.mem_cons.mp hp with hp | hp
      · rw [hp]
        exact RmOk_allowOne resources ps rm hrm hps
      · exact htl p hp
    · intro p hp
      rcases List.mem_cons.mp hp with hp | hp
      · rw [hp]
        exact hrm
      · exact ih htl p hp

theorem Inv_ensureRole (s : AclState) (role : String) (h : Inv s) :
    Inv (ensureRole s role) := by
  induction s with
  | nil =>
    intro p hp
    simp [ensureRole] at hp
    rw [hp]
    intro q hq
    exact absurd hq (List.not_mem_nil q)
  | cons hd tl ih =>
    obtain ⟨n, rm⟩ := hd
    have hrm : RmOk rm := h (n, rm) (List.mem_cons_self _ _)
    have htl : Inv tl := fun p hp => h p (List.mem_cons_of_mem _ hp)
    unfold ensureRole
    split
    · exact h
    · intro p hp
      rcases List.mem_cons.mp hp with hp | hp
      · rw [hp]
        exact hrm
      · exact ih htl p hp

theorem Inv_allowEntries (s : AclState) (role : String) (entries : List AllowEntry)
    (h : Inv s) (he : ∀ e ∈ entries, e.permissions ≠ []) :
    Inv (allowEntries s role entries) := by
  have main : ∀ (es : List AllowEntry) (t : AclState), Inv t →
      (∀ e ∈ es, e.permissions ≠ []) →
      Inv (es.foldl (fun acc e => allowRole acc role e.resources e.permissions) t) := by
    intro es
    induction es with
    | nil => intro t ht _; exact ht
    | cons e es ih =>
      intro t ht hes
      have : (e :: es).foldl (fun acc e => allowRole acc role e.resources e.permissions) t
          = es.foldl (fun acc e => allowRole acc role e.resources e.permissions)
              (allowRole t role e.resources e.permissions) := rfl
      rw [this]
      exact ih _ (Inv_allowRole t role e.resources e.permissions ht
          (hes e (List.mem_cons_self _ _)))
        (fun e1 he1 => hes e1 (List.mem_cons_of_mem _ he1))
  exact main entries (ensureRole s role) (Inv_ensureRole s role h) he

theorem RmOk_removePerms (rm : ResMap) (r : String) (ps : List String)
    (h : RmOk rm) : RmOk (removePerms rm r ps) := by
  induction rm with
  | nil => intro q hq; exact absurd hq (List.not_mem_nil q)
  | cons hd tl ih =>
    obtain ⟨k, old⟩ := hd
    have hold : old ≠ [] := h (k, old) (List.mem_cons_self _ _)
    have htl : RmOk tl := fun q hq => h q (List.mem_cons_of_mem _ hq)
    simp only [removePerms]
    split
    · split
      · exact ih htl
      · rename_i hne
        intro q hq
        rcases List.mem_cons.mp hq with hq | hq
        · subst hq
          intro hc
          exact hne (by simpa using congrArg List.isEmpty hc)
        · exact ih htl q hq
    · intro q hq
      rcases List.mem_cons.mp hq with hq | hq
      · rw [hq]
        exact hold
      · exact ih htl q hq

theorem Inv_removeAllow (s : AclState) (role r : String) (ps : List String)
    (h : Inv s) : Inv (removeAllow s role r ps) := by
  induction s with
  | nil => intro p hp; exact absurd hp (List.not_mem_nil p)
  | cons hd tl ih =>
    obtain ⟨n, rm⟩ := hd
    have hrm : RmOk rm := h (n, rm) (List.mem_cons_self _ _)
    have htl : Inv tl := fun p hp => h p (List.mem_cons_of_mem _ hp)
    unfold removeAllow
    split
    · intro p hp
      rcases List.mem_cons.mp hp with hp | hp
      · rw [hp]
        exact RmOk_removePerms rm r ps hrm
      · exact ih htl p hp
    · intro p hp
      rcases List.mem_cons.mp hp with hp | hp
      · rw [hp]
        exact hrm
      · exact ih htl p hp

theorem ne_nil_of_not_isEmpty {α : Type} (l : List α) (h : (!l.isEmpty) = true) : l ≠ [] := by
  cases l with
  | nil => simp at h
  | cons a as => simp

theorem Inv_grantState (s : AclState) (roleName : String) (body : Body)
    (hInv : Inv s) (hb : bodyPermsOk body = true)
    (hne : body.allows = none → body.permissions.isSome = true) :
    Inv (grantState s roleName body) := by
  unfold grantState
  split
  · rename_i entries heq
    apply Inv_allowEntries s roleName entries hInv
    intro e he
    unfold bodyPermsOk at hb
    rw [heq] at hb
    rw [Bool.and_eq_true] at hb
    have h2 := hb.2
    rw [List.all_eq_true] at h2
    exact ne_nil_of_not_isEmpty _ (h2 e he)
  · rename_i heq
    have hps := hne heq
    obtain ⟨ps, hp⟩ := Option.isSome_iff_exists.mp hps
    have hpne : ps ≠ [] := by
      unfold bodyPermsOk at hb
      rw [hp, Bool.and_eq_true] at hb
      exact ne_nil_of_not_isEmpty ps hb.1
    rw [hp]
    simpa using Inv_allowRole s roleName (body.resources.getD []) ps hInv hpne

theorem isSome_of_validate {b : Body}
    (h2 : ¬(b.allows.isNone && (b.resources.isNone || b.permissions.isNone)) = true)
    (ha : b.allows = none) : b.permissions.isSome = true := by
  cases hperm : b.permissions with
  | some ps => rfl
  | none =>
    rw [ha, hperm] at h2
    simp at h2

theorem Inv_postRoles (s : AclState) (b : Body) (hInv : Inv s) (hb : bodyPermsOk b = true) :
    Inv (postRoles s b).2 := by
  unfold postRoles
  split
  · exact hInv
  · rename_i heq
    apply Inv_grantState s _ b hInv hb
    intro ha
    unfold postRolesValidate at heq
    split at heq
    · cases heq
    · split at heq
      · cases heq
      · split at heq
        · cases heq
        · rename_i h1 h2 h3
          exact isSome_of_validate h2 ha

theorem Inv_postResources (s : AclState) (n : String) (b : Body)
    (hInv : Inv s) (hb : bodyPermsOk b = true) :
    Inv (postResources s n b).2 := by
  unfold postResources
  split
  · exact hInv
  · rename_i heq
    split
    · exact hInv
    · have hne : b.allows = none → b.permissions.isSome = true := by
        intro ha
        unfold postResourcesValidate at heq
        split at heq
        · cases heq
        · rename_i h2
          exact isSome_of_validate h2 ha
      split
      · exact Inv_grantState s n b hInv hb hne
      · exact Inv_grantState s n b hInv hb hne

theorem Inv_postPermissions (s : AclState) (n r : String) (b : Body)
    (hInv : Inv s) (hb : bodyPermsOk b = true) :
    Inv (postPermissions s n r b).2 := by
  unfold postPermissions
  split
  · exact hInv
  · split
    · exact hInv
    · rename_i hp
      have hsome : b.permissions.isSome = true := by
        cases hperm : b.permissions with
        | some ps => rfl
        | none => rw [hperm] at hp; simp at hp
      obtain ⟨ps, hps⟩ := Option.isSome_iff_exists.mp hsome
      have hpne : ps ≠ [] := by
        unfold bodyPermsOk at hb
        rw [hps, Bool.and_eq_true] at hb
        exact ne_nil_of_not_isEmpty ps hb.1
      split
      · exact hInv
      · split
        · exact hInv
        · split
          · rw [hps]
            simpa using Inv_allowRole s n [r] ps hInv hpne
          · rw [hps]
            simpa using Inv_allowRole s n [r] ps hInv hpne

theorem Inv_deleteRole (s : AclState) (n : String) (hInv : Inv s) :
    Inv (deleteRole s n).2 := by
  unfold deleteRole
  split
  · exact hInv
  · split
    · exact hInv
    · split
      · exact hInv
      · rename_i s2 heq
        unfold removeRole at heq
        split at heq
        · cases heq
        · split at heq
          · rw [Except.ok.injEq] at heq
            subst heq
            intro p hp
            exact hInv p (List.mem_filter.mp hp).1
          · cases heq

theorem Inv_deletePermission (s : AclState) (n r p : String) (hInv : Inv s) :
    Inv (deletePermission s n r p).2 := by
  unfold deletePermission
  split
  · exact hInv
  · split
    · exact hInv
    · split
      · exact hInv
      · split
        · exact hInv
        · split
          · exact hInv
          · split
            · exact Inv_removeAllow s n r [p] hInv
            · exact Inv_removeAllow s n r [p] hInv

theorem Inv_deleteResource (s : AclState) (n r : String) (hInv : Inv s) :
    Inv (deleteResource s n r).2 := by
  unfold deleteResource
  split
  · exact hInv
  · split
    · exact hInv
    · split
      · exact hInv
      · split
        · exact Inv_removeAllow s n r _ hInv
        · exact Inv_removeAllow s n r _ hInv

/-- C1 amended: every mutating operation of the roles router preserves the
last-permission invariant (every resource of every role keeps at least one
permission), provided every permission list supplied by a grant request body
is nonempty — the condition the counterexample shows cannot be dropped, and
which the spec RoleGrant (one or more Permissions) presumes.  Failing
requests leave the state unchanged, so the conclusion covers every
post-mutation state, successful or not. -/
theorem mutations_preserve_invariant (s : AclState) (req : MutReq)
    (hInv : Inv s) (hp : reqPermsOk req = true) : Inv (handle s req).2 := by
  cases req with
  | mkRole b => exact Inv_postRoles s b hInv hp
  | rmRole n => exact Inv_deleteRole s n hInv
  | mkResources n b => exact Inv_postResources s n b hInv hp
  | mkPermissions n r b => exact Inv_postPermissions s n r b hInv hp
  | rmPermission n r p => exact Inv_deletePermission s n r p hInv
  | rmResource n r => exact Inv_deleteResource s n r hInv

/-- Witness for the amended C1 at a concrete store and grant request with a
nonempty permission list. -/
theorem mutations_preserve_invariant_witness :
    Inv (handle [("r0", [("res0", ["p0"])])]
        (MutReq.mkResources "r0" ⟨none, none, some ["res1"], some ["p1"]⟩)).2 :=
  mutations_preserve_invariant _ _ (by decide) (by decide)

theorem insertRoute_good (acc : List (String × List String)) (pfx x : String)
    (h : ∀ pr ∈ acc, ∀ r ∈ pr.2, r.data.head? ≠ some '/' ∧ pr.1 = (r.splitOn "/").headI)
    (hx : x.data.head? ≠ some '/') (hpfx : pfx = (x.splitOn "/").headI) :
    ∀ pr ∈ insertRoute acc pfx x, ∀ r ∈ pr.2,
      r.data.head? ≠ some '/' ∧ pr.1 = (r.splitOn "/").headI := by
  induction acc with
  | nil =>
    intro pr hpr r hr
    simp [insertRoute] at hpr
    subst hpr
    simp at hr
    subst hr
    exact ⟨hx, hpfx⟩
  | cons hd tl ih =>
    obtain ⟨k, rs⟩ := hd
    have hhd := h (k, rs) (List.mem_cons_self _ _)
    have htl : ∀ pr ∈ tl, ∀ r ∈ pr.2, r.data.head? ≠ some '/' ∧ pr.1 = (r.splitOn "/").headI :=
      fun pr hpr => h pr (List.mem_cons_of_mem _ hpr)
    unfold insertRoute
    split
    · rename_i hk
      intro pr hpr r hr
      rcases List.mem_cons.mp hpr with hpr | hpr
      · subst hpr
        rcases List.mem_append.mp hr with hr | hr
        · exact hhd r hr
        · simp at hr
          subst hr
          exact ⟨hx, by rw [hk, hpfx]⟩
      · exact htl pr hpr r hr
    · intro pr hpr r hr
      rcases List.mem_cons.mp hpr with hpr | hpr
      · subst hpr
        exact hhd r hr
      · exact ih htl pr hpr r hr

theorem foldl_groupStep_good (l : List String) :
    ∀ acc, (∀ pr ∈ acc, ∀ r ∈ pr.2, r.data.head? ≠ some '/' ∧ pr.1 = (r.splitOn "/").headI) →
    ∀ pr ∈ l.foldl groupStep acc, ∀ r ∈ pr.2,
      r.data.head? ≠ some '/' ∧ pr.1 = (r.splitOn "/").headI := by
  induction l with
  | nil => intro acc h; exact h
  | cons a l ih =>
    intro acc h
    have : (a :: l).foldl groupStep acc = l.foldl groupStep (groupStep acc a) := rfl
    rw [this]
    apply ih
    unfold groupStep
    split
    · exact h
    · rename_i ha
      exact insertRoute_good acc _ a h ha rfl

theorem insertRoute_self (acc : List (String × List String)) (pfx x : String) :
    ∃ rs, (pfx, rs) ∈ insertRoute acc pfx x ∧ x ∈ rs := by
  induction acc with
  | nil => exact ⟨[x], by simp [insertRoute]⟩
  | cons hd tl ih =>
    obtain ⟨k, rs⟩ := hd
    unfold insertRoute
    split
    · rename_i hk
      subst hk
      exact ⟨rs ++ [x], by simp⟩
    · obtain ⟨rs2, hmem, hx⟩ := ih
      exact ⟨rs2, List.mem_cons_of_mem _ hmem, hx⟩

theorem insertRoute_mono (acc : List (String × List String)) (pfx x pfx2 x2 : String)
    (h : ∃ rs, (pfx2, rs) ∈ acc ∧ x2 ∈ rs) :
    ∃ rs, (pfx2, rs) ∈ insertRoute acc pfx x ∧ x2 ∈ rs := by
  induction acc with
  | nil => simp at h
  | cons hd tl ih =>
    obtain ⟨k, rs⟩ := hd
    obtain ⟨rs0, hmem, hx2⟩ := h
    unfold insertRoute
    split
    · rename_i hk
      rcases List.mem_cons.mp hmem with hmem | hmem
      · rw [Prod.mk.injEq] at hmem
        obtain ⟨h1, h2⟩ := hmem
        refine ⟨rs ++ [x], ?_, ?_⟩
        · rw [h1]
          exact List.mem_cons_self _ _
        · exact List.mem_append.mpr (Or.inl (h2 ▸ hx2))
      · exact ⟨rs0, List.mem_cons_of_mem _ hmem, hx2⟩
    · rcases List.mem_cons.mp hmem with hmem | hmem
      · exact ⟨rs0, by rw [hmem]; exact List.mem_cons_self _ _, hx2⟩
      · obtain ⟨rs2, hm2, hx3⟩ := ih ⟨rs0, hmem, hx2⟩
        exact ⟨rs2, List.mem_cons_of_mem _ hm2, hx3⟩

theorem foldl_groupStep_mono (l : List String) (pfx2 x2 : String) :
    ∀ acc, (∃ rs, (pfx2, rs) ∈ acc ∧ x2 ∈ rs) →
    ∃ rs, (pfx2, rs) ∈ l.foldl groupStep acc ∧ x2 ∈ rs := by
  induction l with
  | nil => intro acc h; exact h
  | cons a l ih =>
    intro acc h
    apply ih
    unfold groupStep
    split
    · exact h
    · obtain ⟨rs0, hmem, hx2⟩ := h
      exact insertRoute_mono acc _ a pfx2 x2 ⟨rs0, hmem, hx2⟩

theorem foldl_groupStep_complete (l : List String) :
    ∀ acc, ∀ x ∈ l, x.data.head? ≠ some '/' →
    ∃ rs, ((x.splitOn "/").headI, rs) ∈ l.foldl groupStep acc ∧ x ∈ rs := by
  induction l with
  | nil => intro acc x hx; simp at hx
  | cons a l ih =>
    intro acc x hx hslash
    rcases List.mem_cons.mp hx with hx | hx
    · subst hx
      have hstep : groupStep acc x = insertRoute acc ((x.splitOn "/").headI) x := by
        unfold groupStep
        rw [if_neg hslash]
      have : (x :: l).foldl groupStep acc = l.foldl groupStep (groupStep acc x) := rfl
      rw [this, hstep]
      exact foldl_groupStep_mono l _ x _ (insertRoute_self acc _ x)
    · exact ih (groupStep acc a) x hx hslash

theorem foldl_groupStep_all_slash (l : List String)
    (h : ∀ r ∈ l, r.data.head? = some '/') : ∀ acc, l.foldl groupStep acc = acc := by
  induction l with
  | nil => intro acc; rfl
  | cons a l ih =>
    intro acc
    have : (a :: l).foldl groupStep acc = l.foldl groupStep (groupStep acc a) := rfl
    rw [this]
    have hstep : groupStep acc a = acc := by
      unfold groupStep
      rw [if_pos (h a (List.mem_cons_self _ _))]
    rw [hstep]
    exact ih (fun r hr => h r (List.mem_cons_of_mem _ hr)) acc

/-- C10: the newAppRoutes grouping of updateAppRoutes contains exactly the
resources whose first character is not a slash, each grouped under the part
of it before its first slash; and when every resource starts with a slash
the grouping is empty, so no registry lookup or save happens for any registry
behavior. -/
theorem slash_resources_never_notified (resources : List String) :
    (∀ pr ∈ groupRoutes resources, ∀ r ∈ pr.2,
        r.data.head? ≠ some '/' ∧ pr.1 = (r.splitOn "/").headI) ∧
    (∀ x ∈ resources, x.data.head? ≠ some '/' →
        ∃ rs, ((x.splitOn "/").headI, rs) ∈ groupRoutes resources ∧ x ∈ rs) ∧
    ((∀ r ∈ resources, r.data.head? = some '/') →
        ∀ f, registrySaves f resources = []) := by
  refine ⟨?_, ?_, ?_⟩
  · exact foldl_groupStep_good resources [] (by simp)
  · exact foldl_groupStep_complete resources []
  · intro h f
    unfold registrySaves groupRoutes
    rw [foldl_groupStep_all_slash resources h []]
    rfl

/-- Witness for C10 at a concrete resource list: a prefixed resource is
grouped under its prefix while a slash-prefixed one is not required
anywhere. -/
theorem slash_resources_never_notified_witness :
    ∃ rs, (("app/x".splitOn "/").headI, rs) ∈ groupRoutes ["app/x", "/abs"]
      ∧ "app/x" ∈ rs :=
  (slash_resources_never_notified ["app/x", "/abs"]).2.1 "app/x" (by simp) (by decide)

end A2
